import Mathlib

/-!
Verification of the formae SFTP plugin: a shallow embedding of the
`asyncsftp` package (async operation store, upload/delete job execution,
synchronous read/list/chmod primitives) and of the plugin's six lifecycle
verbs (`Create`, `Read`, `Update`, `Delete`, `Status`, `List`).

The remote SFTP file store is modelled as an association list from absolute
paths to file data.  Remote-transport faults (which in the Go code surface as
non-`IsNotExist` errors from the `pkg/sftp` client) are modelled by explicit
error oracles: an `Option String` per fallible primitive, `none` meaning the
primitive succeeds against the modelled file store.  Timestamps are `Nat`.
Machine permission bits are `Nat`; `stat.Mode().Perm()` masks with `0o777`,
written here as `% 512` (equal on `Nat`, since `0o777 = 0x1FF`).
-/

namespace SftpPlugin

/-- State of an async operation (`OperationState` in the source):
`IN_PROGRESS`, `COMPLETED`, `FAILURE`. -/
inductive OperationState where
  | inProgress
  | completed
  | failure
deriving DecidableEq

/-- Kind of an async operation (`OperationType` in the source):
`UPLOAD` or `DELETE`. -/
inductive OperationType where
  | upload
  | delete
deriving DecidableEq

/-- File content plus metadata as stored on the remote server.  `perm` holds
the full mode bits passed to chmod; `mtime` is the modification timestamp. -/
structure FileData where
  content : String
  perm : Nat
  mtime : Nat
deriving DecidableEq

/-- The remote file store: an association list from absolute path to file
data (first binding wins, as for a map). -/
abbrev FS := List (String × FileData)

/-- Path lookup in the remote file store (`Stat`/`Open` finding the file). -/
def fsGet : FS → String → Option FileData
  | [], _ => none
  | (q, d) :: fs, p => if p = q then some d else fsGet fs p

/-- Create-or-overwrite a path in the remote file store. -/
def fsSet : FS → String → FileData → FS
  | [], p, d => [(p, d)]
  | (q, e) :: fs, p, d => if p = q then (p, d) :: fs else (q, e) :: fsSet fs p d

/-- Remove a path from the remote file store (`Remove`). -/
def fsErase : FS → String → FS
  | [], _ => []
  | (q, e) :: fs, p => if p = q then fsErase fs p else (q, e) :: fsErase fs p

/-- Structure `FileInfo` from the source: file metadata and content as returned by
`ReadFile` and recorded in `Operation.Result`. -/
structure FileInfo where
  path : String
  content : String
  permissions : String
  size : Nat
  modifiedAt : Nat
deriving DecidableEq

/-- Structure `Operation` from the source: one tracked async SFTP operation.  The Go
zero values are the empty string for `Error` and `nil` for `Result`;
`CompletedAt` starts as the zero time, modelled as `0`. -/
structure Operation where
  id : String
  type : OperationType
  path : String
  state : OperationState
  error : String
  result : Option FileInfo
  startedAt : Nat
  completedAt : Nat
deriving DecidableEq

/-- The operation record created by `StartUpload` / `StartDelete` before the
goroutine is launched. -/
def newOp (id : String) (t : OperationType) (path : String) (now : Nat) : Operation :=
  { id := id
    type := t
    path := path
    state := .inProgress
    error := ""
    result := none
    startedAt := now
    completedAt := 0 }

/-- The record mutation performed by `Client.completeOperation` under the
write lock: set the state, stamp `CompletedAt`, and copy the error message
when one is present (`if err != nil { op.Error = err.Error() }`). -/
def completeOp (op : Operation) (st : OperationState) (err : Option String)
    (now : Nat) : Operation :=
  { op with
    state := st
    completedAt := now
    error := (match err with | some m => m | none => op.error) }

/-- Octal digits of a natural number, via `Nat.toDigits`. -/
def toOct (n : Nat) : String := (Nat.toDigits 8 n).asString

/-- Go `fmt.Sprintf("%04o", n)`: octal, zero-padded to width 4. -/
def fmtPerm4 (n : Nat) : String :=
  let s := toOct n
  String.mk (List.replicate (4 - s.length) '0') ++ s

/-- Whether a character is an octal digit. -/
def isOctDigit (c : Char) : Bool := decide ('0' ≤ c ∧ c ≤ '7')

/-- Go `fmt.Sscanf(s, "%o", &perm)`: parse the leading run of octal digits;
`none` when the string does not start with an octal digit (Sscanf reports an
error and leaves the destination unchanged). -/
def scanOctal (s : String) : Option Nat :=
  let ds := s.data.takeWhile isOctDigit
  if ds.isEmpty then none
  else some (ds.foldl (fun a c => a * 8 + (c.toNat - Char.toNat '0')) 0)

/-- The permission-mode value obtained by the plugin's
`var perm os.FileMode = 0644; fmt.Sscanf(permString, "%o", &perm)` pattern:
the scanned octal value, or `0o644` when scanning fails. -/
def permOf (s : String) : Nat := (scanOctal s).getD 0o644

/-- Go `time.Format("2006-01-02T15:04:05Z07:00")`, abstracted as an
injective rendering of the modelled timestamp. -/
def rfc3339 (t : Nat) : String := Nat.repr t

/-- The metadata `ReadFile` assembles for an existing file: `Stat` gives the
permission bits masked to `0o777` and the byte size, `io.ReadAll` the
content. -/
def statInfo (path : String) (fd : FileData) : FileInfo :=
  { path := path
    content := fd.content
    permissions := fmtPerm4 (fd.perm % 512)
    size := fd.content.utf8ByteSize
    modifiedAt := fd.mtime }

/-- Errors surfaced by the synchronous SFTP primitives: `ErrNotFound`
(`os.IsNotExist`) or any other wrapped transport error. -/
inductive SftpErr where
  | notFound
  | other (msg : String)
deriving DecidableEq

/-- Rendering `err.Error()` for an `SftpErr` (`ErrNotFound` reads "file not found"). -/
def SftpErr.message : SftpErr → String
  | .notFound => "file not found"
  | .other m => m

/-- Transport-fault oracle for `ReadFile`: injected errors for its `Stat`,
`Open` and `io.ReadAll` calls; `none` means the call succeeds. -/
structure ReadOracle where
  statErr : Option String := none
  openErr : Option String := none
  readErr : Option String := none
deriving DecidableEq

/-- The fault-free read oracle. -/
def cleanRead : ReadOracle := {}

/-- Source `Client.ReadFile`: stat the path (absence yields `ErrNotFound`), open it,
read the content, and return content plus metadata. -/
def ReadFile (e : ReadOracle) (fs : FS) (path : String) : Except SftpErr FileInfo :=
  match fsGet fs path with
  | none => .error .notFound
  | some fd =>
    match e.statErr with
    | some m => .error (.other ("stat failed: " ++ m))
    | none =>
      match e.openErr with
      | some m => .error (.other ("open failed: " ++ m))
      | none =>
        match e.readErr with
        | some m => .error (.other ("read failed: " ++ m))
        | none => .ok (statInfo path fd)

/-- Source `Client.SetPermissions` (= `sftpClient.Chmod`): synchronous permission
change; fails on a transport fault or when the path is absent. -/
def SetPermissions (chmodErr : Option String) (fs : FS) (path : String)
    (mode : Nat) : Except String FS :=
  match chmodErr with
  | some m => .error m
  | none =>
    match fsGet fs path with
    | none => .error "file does not exist"
    | some fd => .ok (fsSet fs path { fd with perm := mode })

/-- Transport-fault oracle for `doUpload`: injected errors for its `Create`,
`Write`/`Close`, `Chmod` and `Stat` calls. -/
structure UploadOracle where
  createErr : Option String := none
  writeErr : Option String := none
  chmodErr : Option String := none
  statErr : Option String := none
deriving DecidableEq

/-- The fault-free upload oracle. -/
def cleanUpload : UploadOracle := {}

/-- The permission bits a freshly created (not yet chmodded) remote file
carries.  Not observable on the success path, where the subsequent `Chmod`
overwrites it; the constant stands for the server-side default. -/
def createDefaultPerm : Nat := 0o644

/-- Source `Client.doUpload`: create/truncate the file, write the content, chmod it,
re-stat for authoritative metadata, then complete the operation.  Each failed
step completes the operation as `FAILURE` with the wrapped error message and
stops; on success the op gets `Result` (content from memory, permissions and
size from the final stat) and completes as `COMPLETED`.  Returns the file
store as left behind plus the completed operation record. -/
def doUpload (e : UploadOracle) (fs : FS) (op : Operation) (content : String)
    (mode : Nat) (now : Nat) : FS × Operation :=
  match e.createErr with
  | some m => (fs, completeOp op .failure (some ("create failed: " ++ m)) now)
  | none =>
    let prevPerm := match fsGet fs op.path with
      | some fd => fd.perm
      | none => createDefaultPerm
    let fs1 := fsSet fs op.path { content := "", perm := prevPerm, mtime := now }
    match e.writeErr with
    | some m => (fs1, completeOp op .failure (some ("write failed: " ++ m)) now)
    | none =>
      let fs2 := fsSet fs1 op.path { content := content, perm := prevPerm, mtime := now }
      match e.chmodErr with
      | some m => (fs2, completeOp op .failure (some ("chmod failed: " ++ m)) now)
      | none =>
        let fs3 := fsSet fs2 op.path { content := content, perm := mode, mtime := now }
        match e.statErr with
        | some m => (fs3, completeOp op .failure (some ("stat failed: " ++ m)) now)
        | none =>
          match fsGet fs3 op.path with
          | none =>
            (fs3, completeOp op .failure (some "stat failed: file not found") now)
          | some fd =>
            let fi := { statInfo op.path fd with content := content }
            (fs3, completeOp { op with result := some fi } .completed none now)

/-- Source `Client.doDelete`: `Remove` the path; a not-exist outcome is treated as
success ("already deleted"), any other failure completes the operation as
`FAILURE` with the wrapped message. -/
def doDelete (removeErr : Option String) (fs : FS) (op : Operation)
    (now : Nat) : FS × Operation :=
  match fsGet fs op.path with
  | none => (fs, completeOp op .completed none now)
  | some _ =>
    match removeErr with
    | some m => (fs, completeOp op .failure (some ("remove failed: " ++ m)) now)
    | none => (fsErase fs op.path, completeOp op .completed none now)

/-- Lookup in the client's `operations` map (first binding wins). -/
def opsGet : List (String × Operation) → String → Option Operation
  | [], _ => none
  | (i, o) :: ops, id => if id = i then some o else opsGet ops id

/-- Pointer-aliased mutation of the `operations` map: replace the value bound
to `id` (the Go code mutates the `*Operation` the map points to). -/
def opsUpdate (ops : List (String × Operation)) (id : String)
    (f : Operation → Operation) : List (String × Operation) :=
  ops.map (fun p => if p.1 = id then (p.1, f p.2) else p)

/-- Source `Client.GetStatus`: an immutable copy of the record, or an
"operation not found" error for an unknown id. -/
def GetStatus (ops : List (String × Operation)) (id : String) :
    Except String Operation :=
  match opsGet ops id with
  | none => .error ("operation not found: " ++ id)
  | some op => .ok op

/-- Source `Client.completeOperation` as observed through the `operations` map: the
method mutates the record `op` points to, so the map binding for `op.id` (the
same pointer, whenever the id is registered) takes the completed value.  If
the id is not in the map, the map is unchanged — the method performs no
membership check and has no failure channel. -/
def completeOperation (ops : List (String × Operation)) (op : Operation)
    (st : OperationState) (err : Option String) (now : Nat) :
    List (String × Operation) :=
  opsUpdate ops op.id (fun _ => completeOp op st err now)

/-! ## The operation store as a concurrent transition system

`StartUpload` / `StartDelete` register an `IN_PROGRESS` record and launch a
goroutine.  The goroutine touches the shared record at these points:

* `doUpload`, any failed step: one `completeOperation` call under the write
  lock (state `FAILURE`, message `"<step> failed: <cause>"`);
* `doUpload`, success: first the unlocked assignment `op.Result = &FileInfo{…}`,
  then a separate locked `completeOperation(op, StateCompleted, nil)` — two
  distinct atomic events, with a window in between;
* `doDelete`: one `completeOperation` call (state `COMPLETED` on removal or
  a not-exist outcome, `FAILURE` with `"remove failed: …"` otherwise).

Each started goroutine runs once, so each registered job performs its
completion sequence exactly once; `pending` records the jobs whose remaining
store events have not yet fired. -/

/-- A started goroutine's outstanding store events: `upload` before any of
`doUpload`'s store writes, `uploadFinish` after the unlocked `op.Result`
assignment but before the final `completeOperation`, `delete` before
`doDelete`'s single completion. -/
inductive PendingJob where
  | upload (id content : String) (mode : Nat)
  | uploadFinish (id : String)
  | delete (id : String)
deriving DecidableEq

/-- The operation id a pending goroutine works on. -/
def PendingJob.jobId : PendingJob → String
  | .upload i _ _ => i
  | .uploadFinish i => i
  | .delete i => i

/-- Drop the pending goroutine working on id `i`. -/
def pendingRemove (p : List PendingJob) (i : String) : List PendingJob :=
  p.filter (fun j => j.jobId != i)

/-- The operation store together with the outstanding goroutine events. -/
structure StoreSys where
  ops : List (String × Operation)
  pending : List PendingJob

/-- The error-message heads `doUpload` completes a failed operation with. -/
def uploadFailHeads : List String :=
  ["create failed: ", "write failed: ", "chmod failed: ", "stat failed: "]

/-- One atomic event on the operation store.  `start…` steps are the
lock-protected map inserts of `StartUpload`/`StartDelete` (the uuid freshness
of the new id is the `hfresh` premise); the remaining steps are the store
writes performed by the launched goroutines, as catalogued above. -/
inductive StoreStep : StoreSys → StoreSys → Prop where
  | startUpload (s : StoreSys) (i path content : String) (mode now : Nat)
      (hfresh : opsGet s.ops i = none) :
      StoreStep s ⟨(i, newOp i .upload path now) :: s.ops,
                   .upload i content mode :: s.pending⟩
  | startDelete (s : StoreSys) (i path : String) (now : Nat)
      (hfresh : opsGet s.ops i = none) :
      StoreStep s ⟨(i, newOp i .delete path now) :: s.ops,
                   .delete i :: s.pending⟩
  | uploadFails (s : StoreSys) (i content : String) (mode : Nat)
      (pre m : String) (now : Nat)
      (hp : PendingJob.upload i content mode ∈ s.pending)
      (hpre : pre ∈ uploadFailHeads) :
      StoreStep s ⟨opsUpdate s.ops i (fun op => completeOp op .failure (some (pre ++ m)) now),
                   pendingRemove s.pending i⟩
  | uploadSetsResult (s : StoreSys) (i content : String) (mode : Nat) (fi : FileInfo)
      (hp : PendingJob.upload i content mode ∈ s.pending) :
      StoreStep s ⟨opsUpdate s.ops i (fun op => { op with result := some fi }),
                   .uploadFinish i :: pendingRemove s.pending i⟩
  | uploadCompletes (s : StoreSys) (i : String) (now : Nat)
      (hp : PendingJob.uploadFinish i ∈ s.pending) :
      StoreStep s ⟨opsUpdate s.ops i (fun op => completeOp op .completed none now),
                   pendingRemove s.pending i⟩
  | deleteCompletes (s : StoreSys) (i : String) (now : Nat)
      (hp : PendingJob.delete i ∈ s.pending) :
      StoreStep s ⟨opsUpdate s.ops i (fun op => completeOp op .completed none now),
                   pendingRemove s.pending i⟩
  | deleteFails (s : StoreSys) (i m : String) (now : Nat)
      (hp : PendingJob.delete i ∈ s.pending) :
      StoreStep s ⟨opsUpdate s.ops i (fun op => completeOp op .failure (some ("remove failed: " ++ m)) now),
                   pendingRemove s.pending i⟩

/-- States of the operation store reachable from a fresh client
(`operations: make(map[string]*Operation)`, no goroutines). -/
inductive Reach : StoreSys → Prop where
  | init : Reach ⟨[], []⟩
  | step {s t : StoreSys} : Reach s → StoreStep s t → Reach t

/-- What must hold of the record a pending goroutine still works on. -/
def jobOk (ops : List (String × Operation)) : PendingJob → Prop
  | .upload i _ _ => ∃ op, opsGet ops i = some op ∧ op.state = .inProgress ∧
      op.type = .upload ∧ op.result = none
  | .uploadFinish i => ∃ op, opsGet ops i = some op ∧ op.state = .inProgress ∧
      op.type = .upload ∧ op.result.isSome = true
  | .delete i => ∃ op, opsGet ops i = some op ∧ op.state = .inProgress ∧
      op.type = .delete ∧ op.result = none

/-- Per-record store invariant: the error message is present exactly on
failed records; a result snapshot only ever appears on upload records and is
guaranteed once an upload completes; a record is `IN_PROGRESS` exactly while
its goroutine still has store events outstanding. -/
def recOk (pending : List PendingJob) (i : String) (op : Operation) : Prop :=
  (op.error ≠ "" ↔ op.state = .failure) ∧
  (op.result.isSome = true → op.type = .upload) ∧
  (op.state = .completed → op.type = .upload → op.result.isSome = true) ∧
  (op.state = .inProgress ↔ i ∈ pending.map PendingJob.jobId)

/-- Invariant of the operation store system. -/
structure Inv (s : StoreSys) : Prop where
  pendNodup : (s.pending.map PendingJob.jobId).Nodup
  jobs : ∀ j ∈ s.pending, jobOk s.ops j
  recs : ∀ i op, opsGet s.ops i = some op → recOk s.pending i op

/-! ## The plugin's lifecycle verbs

The verbs from `sftp.go`.  `getClient`'s outcome (config parse, URL parse,
credentials, dial) is modelled by a `clientErr : Option String` parameter;
`none` means the shared client is available.  JSON unmarshalling of request
properties is modelled by an `Except String RawFileProps` input (the decoded
struct, with Go zero values for absent fields). -/

/-- Struct `FileProperties` as decoded from wire JSON; absent fields read as the Go
zero values. -/
structure RawFileProps where
  path : String := ""
  content : String := ""
  permissions : String := ""
  size : Nat := 0
  modifiedAt : String := ""
deriving DecidableEq

/-- An ASCII single-quote character (code 39), used in error messages. -/
def sq : String := String.mk [Char.ofNat 39]

/-- Source `parseFileProperties`: reject malformed JSON and a missing `path`;
default `permissions` to `"0644"` when omitted.  The missing-path message
reads: file properties missing (quoted) path. -/
def parseFileProperties (w : Except String RawFileProps) :
    Except String RawFileProps :=
  match w with
  | .error m => .error ("invalid file properties: " ++ m)
  | .ok props =>
    if props.path = "" then
      .error ("file properties missing " ++ sq ++ "path" ++ sq)
    else if props.permissions = "" then .ok { props with permissions := "0644" }
    else .ok props

/-- The verb a `ProgressResult` reports about (`resource.Operation…`). -/
inductive VerbKind where
  | create
  | read
  | update
  | delete
  | checkStatus
  | list
deriving DecidableEq

/-- Type `resource.OperationStatus`. -/
inductive OperationStatus where
  | inProgress
  | success
  | failure
deriving DecidableEq

/-- Type `resource.OperationErrorCode`; `noCode` is the Go zero value. -/
inductive OperationErrorCode where
  | noCode
  | invalidRequest
  | internalFailure
  | notFound
deriving DecidableEq

/-- The file properties marshalled back to the caller from a `FileInfo`. -/
def propsOfInfo (fi : FileInfo) : RawFileProps :=
  { path := fi.path
    content := fi.content
    permissions := fi.permissions
    size := fi.size
    modifiedAt := rfc3339 fi.modifiedAt }

/-- Type `resource.ProgressResult`, shared by Create/Update/Delete/Status results;
unset fields keep their Go zero values. -/
structure ProgressResult where
  verb : VerbKind
  operationStatus : OperationStatus
  errorCode : OperationErrorCode := .noCode
  statusMessage : String := ""
  requestID : String := ""
  nativeID : String := ""
  resourceProperties : Option RawFileProps := none
deriving DecidableEq

/-- Type `resource.ReadResult`: properties and an error code, no status field. -/
structure ReadResult where
  properties : Option RawFileProps := none
  errorCode : OperationErrorCode := .noCode
deriving DecidableEq

/-- Type `resource.ListResult`: native ids and a page token — it carries no
status and no error code at all. -/
structure ListResult where
  nativeIDs : List String
  nextPageToken : Option String := none
deriving DecidableEq

/-- The plugin-side state the verbs act on: the remote file store and the
shared client's operation map.  (Synchronous verbs run their job's goroutine
to completion before returning, so no pending events remain at the
boundaries modelled here.) -/
structure Sys where
  fs : FS
  ops : List (String × Operation)
deriving DecidableEq

/-- A failed `ProgressResult` for verb `v`. -/
def failRes (v : VerbKind) (code : OperationErrorCode) (m : String) : ProgressResult :=
  { verb := v, operationStatus := .failure, errorCode := code, statusMessage := m }

/-- Source `Plugin.Create`: validate the properties (path mandatory, permissions
defaulted), obtain the client, then `StartUpload` and return `InProgress`
with the fresh operation id and the path as native identifier — without
running the upload goroutine (the registered record is still
`IN_PROGRESS` and the file store is untouched when the verb returns). -/
def createVerb (clientErr : Option String) (s : Sys)
    (w : Except String RawFileProps) (freshId : String) (now : Nat) :
    ProgressResult × Sys :=
  match parseFileProperties w with
  | .error m => (failRes .create .invalidRequest m, s)
  | .ok props =>
    match clientErr with
    | some m => (failRes .create .internalFailure m, s)
    | none =>
      ({ verb := .create
         operationStatus := .inProgress
         requestID := freshId
         nativeID := props.path },
       ⟨s.fs, (freshId, newOp freshId .upload props.path now) :: s.ops⟩)

/-- Source `Plugin.Read`: `NotFound` is returned as an error *code* on the result,
never as a raised error — every path of the Go method returns `(result, nil)`,
modelled by the `Except` always being `.ok`. -/
def readVerb (clientErr : Option String) (re : ReadOracle) (fs : FS)
    (nativeId : String) : Except String ReadResult :=
  match clientErr with
  | some _ => .ok { errorCode := .internalFailure }
  | none =>
    match ReadFile re fs nativeId with
    | .error .notFound => .ok { errorCode := .notFound }
    | .error (.other _) => .ok { errorCode := .internalFailure }
    | .ok fi => .ok { properties := some (propsOfInfo fi) }

/-- The read-back with which `Plugin.Update` finishes: return the file's
current state as the success payload. -/
def updReadBack (re : ReadOracle) (s : Sys) (nid : String) :
    ProgressResult × Sys :=
  match ReadFile re s.fs nid with
  | .error e => (failRes .update .internalFailure e.message, s)
  | .ok fi =>
    ({ verb := .update
       operationStatus := .success
       nativeID := nid
       resourceProperties := some (propsOfInfo fi) }, s)

/-- Source `Plugin.Update`, content branch: start an upload job and poll it to a
terminal state (the goroutine is run to completion here, so the poll loop's
exit condition is evaluated on the terminal record). -/
def updContent (ue : UploadOracle) (re : ReadOracle) (s : Sys) (nid : String)
    (desired : RawFileProps) (freshId : String) (now : Nat) :
    ProgressResult × Sys :=
  let perm := permOf desired.permissions
  let r := doUpload ue s.fs (newOp freshId .upload nid now) desired.content perm now
  let s1 : Sys := ⟨r.1, (freshId, r.2) :: s.ops⟩
  if r.2.state = .failure then
    (failRes .update .internalFailure r.2.error, s1)
  else
    updReadBack re s1 nid

/-- Source `Plugin.Update`: re-upload when the content differs from the prior
snapshot (or no prior snapshot parses), take the synchronous chmod fast path
when only the permissions differ, otherwise mutate nothing; in every success
case answer with the re-read current state. -/
def updateVerb (clientErr : Option String) (ue : UploadOracle)
    (chmodErr : Option String) (re : ReadOracle) (s : Sys)
    (nid : String) (priorW desiredW : Except String RawFileProps)
    (freshId : String) (now : Nat) : ProgressResult × Sys :=
  match clientErr with
  | some m => (failRes .update .internalFailure m, s)
  | none =>
    match parseFileProperties desiredW with
    | .error m => (failRes .update .invalidRequest m, s)
    | .ok desired =>
      match parseFileProperties priorW with
      | .error _ => updContent ue re s nid desired freshId now
      | .ok prior =>
        if prior.content ≠ desired.content then
          updContent ue re s nid desired freshId now
        else if prior.permissions ≠ desired.permissions then
          match SetPermissions chmodErr s.fs nid (permOf desired.permissions) with
          | .error m => (failRes .update .internalFailure m, s)
          | .ok fs1 => updReadBack re ⟨fs1, s.ops⟩ nid
        else
          updReadBack re s nid

/-- Source `Plugin.Delete`: probe existence with `ReadFile` (absent ⇒ Failure tagged
`NotFound`, no job started), then start a delete job and poll it to its
terminal state (the goroutine is run to completion here, so the poll loop's
exit condition is evaluated on the terminal record). -/
def deleteVerb (clientErr : Option String) (re : ReadOracle)
    (removeErr : Option String) (s : Sys) (nativeId : String)
    (freshId : String) (now : Nat) : ProgressResult × Sys :=
  match clientErr with
  | some m => (failRes .delete .internalFailure m, s)
  | none =>
    match ReadFile re s.fs nativeId with
    | .error .notFound =>
      ({ verb := .delete
         operationStatus := .failure
         errorCode := .notFound
         nativeID := nativeId }, s)
    | .error (.other m) => (failRes .delete .internalFailure m, s)
    | .ok _ =>
      let r := doDelete removeErr s.fs (newOp freshId .delete nativeId now) now
      let s1 : Sys := ⟨r.1, (freshId, r.2) :: s.ops⟩
      if r.2.state = .completed then
        ({ verb := .delete
           operationStatus := .success
           nativeID := nativeId }, s1)
      else
        ({ verb := .delete
           operationStatus := .failure
           errorCode := .internalFailure
           statusMessage := r.2.error }, s1)

/-- Source `Plugin.Status`: guard against a nil client, look the operation up, and
map its state onto the caller's status vocabulary, attaching the resource
properties only when a result snapshot is present. -/
def statusVerb (hasClient : Bool) (ops : List (String × Operation))
    (reqId : String) : ProgressResult :=
  match hasClient with
  | false =>
    { verb := .checkStatus
      operationStatus := .failure
      errorCode := .internalFailure
      statusMessage := "no client available" }
  | true =>
    match GetStatus ops reqId with
    | .error m => failRes .checkStatus .internalFailure m
    | .ok op =>
      match op.state with
      | .inProgress =>
        { verb := .checkStatus
          operationStatus := .inProgress
          requestID := reqId
          nativeID := op.path
          statusMessage := op.error }
      | .completed =>
        { verb := .checkStatus
          operationStatus := .success
          requestID := reqId
          nativeID := op.path
          resourceProperties := (op.result.map propsOfInfo)
          statusMessage := op.error }
      | .failure =>
        { verb := .checkStatus
          operationStatus := .failure
          errorCode := .internalFailure
          requestID := reqId
          nativeID := op.path
          statusMessage := op.error }

/-- Source `Plugin.List`: on a client failure it returns `{NativeIDs: []}` with no
error indication whatsoever; likewise for any `ListFiles` error.  The
`ListFiles` call itself is abstracted as its outcome `listRes`. -/
def listVerb (clientErr : Option String)
    (listRes : Except SftpErr (List String)) : ListResult :=
  match clientErr with
  | some _ => { nativeIDs := [] }
  | none =>
    match listRes with
    | .error _ => { nativeIDs := [] }
    | .ok paths => { nativeIDs := paths }

/-! ## Basic lemmas about the file store and the operation map -/

@[simp]
theorem fsGet_nil (p : String) : fsGet [] p = none := rfl

@[simp]
theorem fsGet_fsSet_self (fs : FS) (p : String) (d : FileData) :
    fsGet (fsSet fs p d) p = some d := by
  induction fs with
  | nil => simp [fsSet, fsGet]
  | cons hd tl ih =>
    obtain ⟨q, e⟩ := hd
    by_cases h : p = q <;> simp [fsSet, fsGet, h, ih]

theorem fsGet_fsSet_ne (fs : FS) (p q : String) (d : FileData) (h : q ≠ p) :
    fsGet (fsSet fs p d) q = fsGet fs q := by
  induction fs with
  | nil => simp [fsSet, fsGet, h]
  | cons hd tl ih =>
    obtain ⟨r, e⟩ := hd
    by_cases hpr : p = r
    · subst hpr
      simp [fsSet, fsGet, h]
    · by_cases hqr : q = r <;> simp [fsSet, fsGet, hpr, hqr, ih]

@[simp]
theorem fsGet_fsErase_self (fs : FS) (p : String) :
    fsGet (fsErase fs p) p = none := by
  induction fs with
  | nil => simp [fsErase]
  | cons hd tl ih =>
    obtain ⟨q, e⟩ := hd
    by_cases h : p = q
    · subst h
      simpa [fsErase] using ih
    · simp [fsErase, fsGet, h, ih]

@[simp]
theorem opsGet_nil (i : String) : opsGet [] i = none := rfl

theorem opsGet_cons (k : String) (v : Operation) (ops : List (String × Operation))
    (i : String) : opsGet ((k, v) :: ops) i = if i = k then some v else opsGet ops i := rfl

theorem opsUpdate_cons (k : String) (v : Operation) (tl : List (String × Operation))
    (i : String) (f : Operation → Operation) :
    opsUpdate ((k, v) :: tl) i f =
      (if k = i then (k, f v) else (k, v)) :: opsUpdate tl i f := by
  by_cases h : k = i <;> simp [opsUpdate, h]

theorem opsGet_opsUpdate (ops : List (String × Operation)) (i : String)
    (f : Operation → Operation) (j : String) :
    opsGet (opsUpdate ops i f) j =
      if j = i then (opsGet ops j).map f else opsGet ops j := by
  induction ops with
  | nil => simp [opsUpdate, opsGet]
  | cons hd tl ih =>
    obtain ⟨k, v⟩ := hd
    rw [opsUpdate_cons]
    by_cases hki : k = i
    · subst hki
      rw [if_pos rfl]
      by_cases hjk : j = k
      · subst hjk
        simp [opsGet_cons]
      · simp [opsGet_cons, hjk, ih]
    · rw [if_neg hki]
      by_cases hjk : j = k
      · subst hjk
        have hji : ¬ j = i := hki
        simp [opsGet_cons, hji]
      · simp [opsGet_cons, hjk, ih]

theorem opsUpdate_of_get_none (ops : List (String × Operation)) (i : String)
    (f : Operation → Operation) (h : opsGet ops i = none) :
    opsUpdate ops i f = ops := by
  induction ops with
  | nil => rfl
  | cons hd tl ih =>
    obtain ⟨k, v⟩ := hd
    rw [opsGet_cons] at h
    by_cases hik : i = k
    · simp [hik] at h
    · simp [hik] at h
      have hki : ¬ (k = i) := fun hh => hik hh.symm
      simp [opsUpdate, hki] at ih ⊢
      exact ih h

/-! ## Lemmas about pending goroutines -/

theorem mem_pendingRemove {p : List PendingJob} {i : String} {j : PendingJob} :
    j ∈ pendingRemove p i ↔ j ∈ p ∧ j.jobId ≠ i := by
  simp [pendingRemove, List.mem_filter, bne_iff_ne]

theorem mem_map_pendingRemove {p : List PendingJob} {i x : String} :
    x ∈ (pendingRemove p i).map PendingJob.jobId ↔
      x ∈ p.map PendingJob.jobId ∧ x ≠ i := by
  constructor
  · rintro h
    obtain ⟨j, hj, rfl⟩ := List.mem_map.mp h
    obtain ⟨hjp, hne⟩ := mem_pendingRemove.mp hj
    exact ⟨List.mem_map.mpr ⟨j, hjp, rfl⟩, hne⟩
  · rintro ⟨h, hne⟩
    obtain ⟨j, hj, rfl⟩ := List.mem_map.mp h
    exact List.mem_map.mpr ⟨j, mem_pendingRemove.mpr ⟨hj, hne⟩, rfl⟩

theorem nodup_map_pendingRemove {p : List PendingJob} {i : String}
    (h : (p.map PendingJob.jobId).Nodup) :
    ((pendingRemove p i).map PendingJob.jobId).Nodup :=
  h.sublist ((List.filter_sublist p).map PendingJob.jobId)

/-! ## Helper lemmas for the store invariant -/

theorem ne_empty_append (s t : String) (h : s.length ≠ 0) : s ++ t ≠ "" := by
  intro hc
  have hlen := congrArg String.length hc
  rw [String.length_append] at hlen
  simp at hlen
  omega

theorem uploadFailHeads_length_pos : ∀ pre ∈ uploadFailHeads, pre.length ≠ 0 := by
  decide

theorem uploadFail_msg_ne_empty {pre : String} (m : String)
    (h : pre ∈ uploadFailHeads) : pre ++ m ≠ "" :=
  ne_empty_append pre m (uploadFailHeads_length_pos pre h)

theorem jobOk_get {ops : List (String × Operation)} {j : PendingJob}
    (h : jobOk ops j) :
    ∃ op, opsGet ops j.jobId = some op ∧ op.state = .inProgress := by
  cases j with
  | upload i c m => obtain ⟨op, h1, h2, _⟩ := h; exact ⟨op, h1, h2⟩
  | uploadFinish i => obtain ⟨op, h1, h2, _⟩ := h; exact ⟨op, h1, h2⟩
  | delete i => obtain ⟨op, h1, h2, _⟩ := h; exact ⟨op, h1, h2⟩

theorem jobOk_mono {ops ops2 : List (String × Operation)} {j : PendingJob}
    (h : jobOk ops j)
    (hget : opsGet ops2 j.jobId = opsGet ops j.jobId) : jobOk ops2 j := by
  cases j with
  | upload i c m => obtain ⟨op, h1, hr⟩ := h; exact ⟨op, hget.trans h1, hr⟩
  | uploadFinish i => obtain ⟨op, h1, hr⟩ := h; exact ⟨op, hget.trans h1, hr⟩
  | delete i => obtain ⟨op, h1, hr⟩ := h; exact ⟨op, hget.trans h1, hr⟩

theorem fresh_not_pending {s : StoreSys} (hs : Inv s) {i : String}
    (hfresh : opsGet s.ops i = none) :
    i ∉ s.pending.map PendingJob.jobId := by
  intro hmem
  obtain ⟨j, hj, hjid⟩ := List.mem_map.mp hmem
  obtain ⟨op, hop, _⟩ := jobOk_get (hs.jobs j hj)
  rw [hjid, hfresh] at hop
  exact Option.noConfusion hop

theorem recOk_newOp (pending : List PendingJob) (i : String) (t : OperationType)
    (path : String) (now : Nat) (hmem : i ∈ pending.map PendingJob.jobId) :
    recOk pending i (newOp i t path now) := by
  refine ⟨?_, ?_, ?_, ?_⟩ <;> simp [newOp, hmem]

theorem not_self_mem_map_pendingRemove (p : List PendingJob) (i : String) :
    i ∉ (pendingRemove p i).map PendingJob.jobId := by
  intro h
  exact absurd rfl (mem_map_pendingRemove.mp h).2

theorem mem_map_pendingRemove_of_ne {p : List PendingJob} {i i2 : String}
    (hne : i2 ≠ i) :
    i2 ∈ (pendingRemove p i).map PendingJob.jobId ↔
      i2 ∈ p.map PendingJob.jobId := by
  rw [mem_map_pendingRemove]
  exact ⟨fun h => h.1, fun h => ⟨h, hne⟩⟩

/-- Registering a fresh record (a `start…` step) preserves the invariant. -/
theorem inv_start {s : StoreSys} (hs : Inv s) (i path : String)
    (t : OperationType) (j : PendingJob) (now : Nat)
    (hfresh : opsGet s.ops i = none) (hjid : j.jobId = i)
    (hok : jobOk ((i, newOp i t path now) :: s.ops) j) :
    Inv ⟨(i, newOp i t path now) :: s.ops, j :: s.pending⟩ := by
  refine ⟨?_, ?_, ?_⟩
  · simp only [List.map_cons, List.nodup_cons, hjid]
    exact ⟨fresh_not_pending hs hfresh, hs.pendNodup⟩
  · intro j2 hj2
    rcases List.mem_cons.mp hj2 with hj2 | hj2
    · subst hj2
      exact hok
    · have hok2 := hs.jobs j2 hj2
      have hne : j2.jobId ≠ i := by
        intro he
        obtain ⟨op, hop, _⟩ := jobOk_get hok2
        rw [he, hfresh] at hop
        exact Option.noConfusion hop
      refine jobOk_mono hok2 ?_
      rw [opsGet_cons, if_neg hne]
  · intro i2 op hop
    rw [opsGet_cons] at hop
    by_cases hei : i2 = i
    · subst hei
      rw [if_pos rfl] at hop
      obtain rfl : newOp i2 t path now = op := Option.some.inj hop
      exact recOk_newOp _ _ _ _ _ (by simp [hjid])
    · rw [if_neg hei] at hop
      obtain ⟨h1, h2, h3, h4⟩ := hs.recs i2 op hop
      refine ⟨h1, h2, h3, ?_⟩
      rw [h4]
      simp [hjid, hei]

/-- Every atomic store event preserves the invariant. -/
theorem storeStep_inv {s t : StoreSys} (hs : Inv s) (hst : StoreStep s t) :
    Inv t := by
  cases hst with
  | startUpload i path content mode now hfresh =>
    exact inv_start hs i path .upload (.upload i content mode) now hfresh rfl
      ⟨newOp i .upload path now, by rw [opsGet_cons, if_pos rfl], rfl, rfl, rfl⟩
  | startDelete i path now hfresh =>
    exact inv_start hs i path .delete (.delete i) now hfresh rfl
      ⟨newOp i .delete path now, by rw [opsGet_cons, if_pos rfl], rfl, rfl, rfl⟩
  | uploadFails i content mode pre m now hp hpre =>
    obtain ⟨op0, hop0, hst0, hty0, hres0⟩ := hs.jobs _ hp
    refine ⟨nodup_map_pendingRemove hs.pendNodup, ?_, ?_⟩
    · intro j hj
      obtain ⟨hjp, hne⟩ := mem_pendingRemove.mp hj
      refine jobOk_mono (hs.jobs j hjp) ?_
      rw [opsGet_opsUpdate, if_neg hne]
    · intro i2 op hop
      rw [opsGet_opsUpdate] at hop
      by_cases hei : i2 = i
      · subst hei
        rw [if_pos rfl, hop0] at hop
        obtain rfl : completeOp op0 .failure (some (pre ++ m)) now = op :=
          Option.some.inj hop
        refine ⟨?_, ?_, ?_, ?_⟩
        · exact ⟨fun _ => rfl, fun _ => uploadFail_msg_ne_empty m hpre⟩
        · intro hres
          rw [show (completeOp op0 .failure (some (pre ++ m)) now).result = op0.result
              from rfl, hres0] at hres
          exact absurd hres (by simp)
        · intro hcomp
          exact absurd hcomp (by simp [completeOp])
        · constructor
          · intro hx
            exact absurd hx (by simp [completeOp])
          · intro hx
            exact absurd hx (not_self_mem_map_pendingRemove _ _)
      · rw [if_neg hei] at hop
        obtain ⟨h1, h2, h3, h4⟩ := hs.recs i2 op hop
        refine ⟨h1, h2, h3, ?_⟩
        rw [h4]
        exact (mem_map_pendingRemove_of_ne hei).symm
  | uploadSetsResult i content mode fi hp =>
    obtain ⟨op0, hop0, hst0, hty0, hres0⟩ := hs.jobs _ hp
    refine ⟨?_, ?_, ?_⟩
    · simp only [List.map_cons, List.nodup_cons, PendingJob.jobId]
      exact ⟨fun hmem => (mem_map_pendingRemove.mp hmem).2 rfl,
        nodup_map_pendingRemove hs.pendNodup⟩
    · intro j hj
      rcases List.mem_cons.mp hj with hj | hj
      · subst hj
        refine ⟨{ op0 with result := some fi }, ?_, hst0, hty0, rfl⟩
        rw [opsGet_opsUpdate, if_pos rfl, hop0]
        rfl
      · obtain ⟨hjp, hne⟩ := mem_pendingRemove.mp hj
        refine jobOk_mono (hs.jobs j hjp) ?_
        rw [opsGet_opsUpdate, if_neg hne]
    · intro i2 op hop
      rw [opsGet_opsUpdate] at hop
      by_cases hei : i2 = i
      · subst hei
        rw [if_pos rfl, hop0] at hop
        obtain rfl : { op0 with result := some fi } = op := Option.some.inj hop
        obtain ⟨h1, h2, h3, h4⟩ := hs.recs i2 op0 hop0
        refine ⟨h1, fun _ => hty0, ?_, ?_⟩
        · intro hcomp
          rw [show ({ op0 with result := some fi } : Operation).state = op0.state
              from rfl, hst0] at hcomp
          exact absurd hcomp (by simp)
        · rw [show ({ op0 with result := some fi } : Operation).state = op0.state
              from rfl, hst0]
          simp only [List.map_cons]
          exact ⟨fun _ => List.mem_cons_self _ _, fun _ => trivial⟩
      · rw [if_neg hei] at hop
        obtain ⟨h1, h2, h3, h4⟩ := hs.recs i2 op hop
        refine ⟨h1, h2, h3, ?_⟩
        rw [h4]
        constructor
        · intro hx
          exact List.mem_cons_of_mem _ ((mem_map_pendingRemove_of_ne hei).mpr hx)
        · intro hx
          rcases List.mem_cons.mp hx with hx | hx
          · exact absurd hx hei
          · exact (mem_map_pendingRemove_of_ne hei).mp hx
  | uploadCompletes i now hp =>
    obtain ⟨op0, hop0, hst0, hty0, hres0⟩ := hs.jobs _ hp
    obtain ⟨h1, h2, h3, h4⟩ := hs.recs i op0 hop0
    have herr : op0.error = "" := by
      by_contra hne
      have := h1.mp hne
      rw [hst0] at this
      exact absurd this (by simp)
    refine ⟨nodup_map_pendingRemove hs.pendNodup, ?_, ?_⟩
    · intro j hj
      obtain ⟨hjp, hne⟩ := mem_pendingRemove.mp hj
      refine jobOk_mono (hs.jobs j hjp) ?_
      rw [opsGet_opsUpdate, if_neg hne]
    · intro i2 op hop
      rw [opsGet_opsUpdate] at hop
      by_cases hei : i2 = i
      · subst hei
        rw [if_pos rfl, hop0] at hop
        obtain rfl : completeOp op0 .completed none now = op := Option.some.inj hop
        refine ⟨?_, fun _ => hty0, fun _ _ => hres0, ?_⟩
        · rw [show (completeOp op0 .completed none now).error = op0.error from rfl,
            herr]
          simp [completeOp]
        · constructor
          · intro hx
            exact absurd hx (by simp [completeOp])
          · intro hx
            exact absurd hx (not_self_mem_map_pendingRemove _ _)
      · rw [if_neg hei] at hop
        obtain ⟨g1, g2, g3, g4⟩ := hs.recs i2 op hop
        refine ⟨g1, g2, g3, ?_⟩
        rw [g4]
        exact (mem_map_pendingRemove_of_ne hei).symm
  | deleteCompletes i now hp =>
    obtain ⟨op0, hop0, hst0, hty0, hres0⟩ := hs.jobs _ hp
    obtain ⟨h1, h2, h3, h4⟩ := hs.recs i op0 hop0
    have herr : op0.error = "" := by
      by_contra hne
      have := h1.mp hne
      rw [hst0] at this
      exact absurd this (by simp)
    refine ⟨nodup_map_pendingRemove hs.pendNodup, ?_, ?_⟩
    · intro j hj
      obtain ⟨hjp, hne⟩ := mem_pendingRemove.mp hj
      refine jobOk_mono (hs.jobs j hjp) ?_
      rw [opsGet_opsUpdate, if_neg hne]
    · intro i2 op hop
      rw [opsGet_opsUpdate] at hop
      by_cases hei : i2 = i
      · subst hei
        rw [if_pos rfl, hop0] at hop
        obtain rfl : completeOp op0 .completed none now = op := Option.some.inj hop
        refine ⟨?_, ?_, ?_, ?_⟩
        · rw [show (completeOp op0 .completed none now).error = op0.error from rfl,
            herr]
          simp [completeOp]
        · intro hres
          rw [show (completeOp op0 .completed none now).result = op0.result from rfl,
            hres0] at hres
          exact absurd hres (by simp)
        · intro _ hup
          rw [show (completeOp op0 .completed none now).type = op0.type from rfl,
            hty0] at hup
          exact absurd hup (by simp)
        · constructor
          · intro hx
            exact absurd hx (by simp [completeOp])
          · intro hx
            exact absurd hx (not_self_mem_map_pendingRemove _ _)
      · rw [if_neg hei] at hop
        obtain ⟨g1, g2, g3, g4⟩ := hs.recs i2 op hop
        refine ⟨g1, g2, g3, ?_⟩
        rw [g4]
        exact (mem_map_pendingRemove_of_ne hei).symm
  | deleteFails i m now hp =>
    obtain ⟨op0, hop0, hst0, hty0, hres0⟩ := hs.jobs _ hp
    refine ⟨nodup_map_pendingRemove hs.pendNodup, ?_, ?_⟩
    · intro j hj
      obtain ⟨hjp, hne⟩ := mem_pendingRemove.mp hj
      refine jobOk_mono (hs.jobs j hjp) ?_
      rw [opsGet_opsUpdate, if_neg hne]
    · intro i2 op hop
      rw [opsGet_opsUpdate] at hop
      by_cases hei : i2 = i
      · subst hei
        rw [if_pos rfl, hop0] at hop
        obtain rfl : completeOp op0 .failure (some ("remove failed: " ++ m)) now = op :=
          Option.some.inj hop
        refine ⟨?_, ?_, ?_, ?_⟩
        · exact ⟨fun _ => rfl,
            fun _ => ne_empty_append "remove failed: " m (by decide)⟩
        · intro hres
          rw [show (completeOp op0 .failure (some ("remove failed: " ++ m)) now).result
              = op0.result from rfl, hres0] at hres
          exact absurd hres (by simp)
        · intro hcomp
          exact absurd hcomp (by simp [completeOp])
        · constructor
          · intro hx
            exact absurd hx (by simp [completeOp])
          · intro hx
            exact absurd hx (not_self_mem_map_pendingRemove _ _)
      · rw [if_neg hei] at hop
        obtain ⟨g1, g2, g3, g4⟩ := hs.recs i2 op hop
        refine ⟨g1, g2, g3, ?_⟩
        rw [g4]
        exact (mem_map_pendingRemove_of_ne hei).symm

/-- The store invariant holds in every reachable state. -/
theorem reach_inv {s : StoreSys} (h : Reach s) : Inv s := by
  induction h with
  | init =>
    refine ⟨List.nodup_nil, ?_, ?_⟩
    · intro j hj
      exact absurd hj (List.not_mem_nil j)
    · intro i op hop
      exact Option.noConfusion hop
  | step hr hst ih => exact storeStep_inv ih hst

/-! ## Claim C1: completed upload read back -/

/-- C1: for every valid `(path, content, mode)` (a permission mode is at most
9 bits, `mode < 0o1000`), running the upload job started by `StartUpload` to
the `Completed` state implies that a subsequent fault-free `ReadFile(path)`
returns exactly that content, that permission mode (rendered 4-digit octal,
as `ReadFile` reports permissions), and a size equal to the byte length of
the content. -/
theorem upload_completed_read_back (e : UploadOracle) (fs : FS)
    (id path content : String) (mode now : Nat) (hmode : mode < 512)
    (hdone : (doUpload e fs (newOp id .upload path now) content mode now).2.state
      = .completed) :
    ReadFile cleanRead (doUpload e fs (newOp id .upload path now) content mode now).1
        path =
      .ok { path := path
            content := content
            permissions := fmtPerm4 mode
            size := content.utf8ByteSize
            modifiedAt := now } := by
  obtain ⟨ce, we, che, se⟩ := e
  cases ce with
  | some m => simp [doUpload, completeOp] at hdone
  | none =>
    cases we with
    | some m => simp [doUpload, completeOp] at hdone
    | none =>
      cases che with
      | some m => simp [doUpload, completeOp] at hdone
      | none =>
        cases se with
        | some m => simp [doUpload, completeOp] at hdone
        | none =>
          simp [doUpload, newOp, ReadFile, cleanRead, statInfo,
            Nat.mod_eq_of_lt hmode]

/-- Witness for C1 at a concrete input: uploading "hi" with mode `0o644`
(= 420) to an empty store completes, and reading back returns content "hi",
permissions `fmtPerm4 0o644`, and size 2. -/
theorem upload_completed_read_back_w :
    420 < 512 ∧
    (doUpload cleanUpload [] (newOp "op-1" .upload "/upload/a.txt" 5) "hi" 420 5).2.state
      = OperationState.completed ∧
    ReadFile cleanRead
        (doUpload cleanUpload [] (newOp "op-1" .upload "/upload/a.txt" 5) "hi" 420 5).1
        "/upload/a.txt" =
      .ok { path := "/upload/a.txt"
            content := "hi"
            permissions := fmtPerm4 420
            size := "hi".utf8ByteSize
            modifiedAt := 5 } :=
  ⟨by decide, rfl,
    upload_completed_read_back cleanUpload [] "op-1" "/upload/a.txt" "hi" 420 5
      (by decide) rfl⟩

/-! ## Claim C7: delete is idempotent -/

/-- The caller-observable outcome of a completed operation record: its state,
error message and result snapshot (ids and timestamps are job bookkeeping,
not remote-state observables). -/
def opObservables (op : Operation) : OperationState × String × Option FileInfo :=
  (op.state, op.error, op.result)

/-- C7: `doDelete` on an absent path completes the job as `Completed` (not
`Failed`) and leaves the remote store untouched; and, for any store, running
two delete jobs on the same path back to back completes both as `Completed`
with identical observable outcome and identical resulting remote state. -/
theorem delete_idempotent (fs : FS) (path id1 id2 : String) (t1 t2 : Nat) :
    (fsGet fs path = none →
      doDelete none fs (newOp id1 .delete path t1) t1 =
        (fs, completeOp (newOp id1 .delete path t1) .completed none t1)) ∧
    (doDelete none fs (newOp id1 .delete path t1) t1).2.state = .completed ∧
    (doDelete none (doDelete none fs (newOp id1 .delete path t1) t1).1
        (newOp id2 .delete path t2) t2).2.state = .completed ∧
    opObservables
        (doDelete none (doDelete none fs (newOp id1 .delete path t1) t1).1
          (newOp id2 .delete path t2) t2).2 =
      opObservables (doDelete none fs (newOp id1 .delete path t1) t1).2 ∧
    (doDelete none (doDelete none fs (newOp id1 .delete path t1) t1).1
        (newOp id2 .delete path t2) t2).1 =
      (doDelete none fs (newOp id1 .delete path t1) t1).1 := by
  cases h : fsGet fs path with
  | none =>
    refine ⟨fun _ => ?_, ?_, ?_, ?_, ?_⟩ <;>
      simp [doDelete, newOp, h, completeOp, opObservables]
  | some fd =>
    refine ⟨fun habs => ?_, ?_, ?_, ?_, ?_⟩
    · exact Option.noConfusion habs
    all_goals
      simp [doDelete, newOp, h, completeOp, opObservables, fsGet_fsErase_self]

/-- Witness for C7 at a concrete input: deleting an absent path in the empty
store completes as success and changes nothing. -/
theorem delete_idempotent_w :
    fsGet [] "/upload/x.txt" = none ∧
    doDelete none [] (newOp "a" .delete "/upload/x.txt" 1) 1 =
      ([], completeOp (newOp "a" .delete "/upload/x.txt" 1) .completed none 1) :=
  ⟨rfl, (delete_idempotent [] "/upload/x.txt" "a" "b" 1 2).1 rfl⟩

/-! ## Claim C9: completing an unregistered operation id -/

/-- C9 counterexample: `completeOperation` cannot fail at all — it takes the
operation record (not an id), performs no membership check, and returns
nothing; completing an id absent from the store silently leaves the
`operations` map unchanged instead of failing with NotFound.  Concretely:
completing the never-registered operation "ghost" against an empty store
returns normally with the store untouched. -/
theorem completeOperation_unknown_id_cex :
    completeOperation [] (newOp "ghost" .upload "/upload/a.txt" 0) .completed none 7
      = [] := rfl

/-- C9 (amended): completing an id that is not registered in the operation
store silently leaves the store unchanged (the operation has no failure
channel); an unknown id is reported — as the error "operation not found:
id" — only by `GetStatus`. -/
theorem completeOperation_unknown_id (ops : List (String × Operation))
    (op : Operation) (st : OperationState) (err : Option String) (now : Nat)
    (h : opsGet ops op.id = none) :
    completeOperation ops op st err now = ops ∧
    GetStatus ops op.id = .error ("operation not found: " ++ op.id) := by
  constructor
  · exact opsUpdate_of_get_none _ _ _ h
  · simp [GetStatus, h]

/-- Witness for C9 (amended) at a concrete input. -/
theorem completeOperation_unknown_id_w :
    opsGet [] (newOp "ghost" .upload "/upload/a.txt" 0).id = none ∧
    (completeOperation [] (newOp "ghost" .upload "/upload/a.txt" 0) .completed none 7
        = [] ∧
      GetStatus [] (newOp "ghost" .upload "/upload/a.txt" 0).id =
        .error ("operation not found: " ++ (newOp "ghost" .upload "/upload/a.txt" 0).id)) :=
  ⟨rfl, completeOperation_unknown_id [] (newOp "ghost" .upload "/upload/a.txt" 0)
    .completed none 7 rfl⟩

/-! ## Claim C10: Status before any client exists -/

/-- C10: calling `Status` while the plugin's client is still nil returns a
Failure result with error code InternalFailure and the message
"no client available", for every operation store and request id (the missing
client is never dereferenced — the verb returns before looking anything
up). -/
theorem status_nil_client (ops : List (String × Operation)) (rid : String) :
    statusVerb false ops rid =
      { verb := .checkStatus
        operationStatus := .failure
        errorCode := .internalFailure
        statusMessage := "no client available" } := rfl

/-! ## Claim C3: Create validates, defaults, and starts without waiting -/

/-- C3: for every Create request: a missing path yields a synchronous
Failure with `InvalidRequest` and an unchanged plugin state (no job
registered); an omitted permission mode is defaulted to "0644" by the
property parser; and for any successfully parsed properties, Create registers
an Upload job — still `IN_PROGRESS`, with the remote store untouched, i.e.
without waiting for the upload — and immediately returns `InProgress`
carrying the fresh job id and the path as native identifier. -/
theorem create_validates_and_starts (w : Except String RawFileProps)
    (clientErr : Option String) (s : Sys) (fid : String) (now : Nat) :
    (∀ p, w = .ok p → p.path = "" →
      createVerb clientErr s w fid now =
        (failRes .create .invalidRequest
          ("file properties missing " ++ sq ++ "path" ++ sq), s)) ∧
    (∀ p, w = .ok p → p.path ≠ "" → p.permissions = "" →
      parseFileProperties w = .ok { p with permissions := "0644" }) ∧
    (∀ p, parseFileProperties w = .ok p →
      createVerb none s w fid now =
        ({ verb := .create
           operationStatus := .inProgress
           requestID := fid
           nativeID := p.path },
         ⟨s.fs, (fid, newOp fid .upload p.path now) :: s.ops⟩)) := by
  refine ⟨?_, ?_, ?_⟩
  · rintro p rfl hpath
    simp [createVerb, parseFileProperties, hpath]
  · rintro p rfl hpath hperm
    simp [parseFileProperties, hpath, hperm]
  · intro p hp
    simp [createVerb, hp]

/-- Witness for C3 at a concrete input: properties with a path, content "hi"
and omitted permissions parse with permissions defaulted to "0644", and
Create returns `InProgress` with the job id and native id while the store
gains exactly the still-`IN_PROGRESS` upload record. -/
theorem create_validates_and_starts_w :
    parseFileProperties (.ok { path := "/upload/a.txt", content := "hi" }) =
      .ok { path := "/upload/a.txt", content := "hi", permissions := "0644" } ∧
    createVerb none ⟨[], []⟩ (.ok { path := "/upload/a.txt", content := "hi" })
        "op-1" 3 =
      ({ verb := .create
         operationStatus := .inProgress
         requestID := "op-1"
         nativeID := "/upload/a.txt" },
       ⟨[], [("op-1", newOp "op-1" .upload "/upload/a.txt" 3)]⟩) :=
  ⟨rfl,
    (create_validates_and_starts (.ok { path := "/upload/a.txt", content := "hi" })
        none ⟨[], []⟩ "op-1" 3).2.2
      { path := "/upload/a.txt", content := "hi", permissions := "0644" } rfl⟩

/-! ## Claim C4: Delete probes then polls the delete job -/

/-- C4: Delete first probes existence with a read: if the target is absent it
returns Failure with error code `NotFound` and the plugin state is unchanged
(no delete job started); otherwise it runs a delete job to its terminal state
and returns Success exactly when the job completed, or Failure carrying the
job's error message when the job failed — the completed job record being
registered in the store either way. -/
theorem delete_probes_then_polls (re : ReadOracle) (removeErr : Option String)
    (s : Sys) (nid fid : String) (now : Nat) :
    (ReadFile re s.fs nid = .error .notFound →
      deleteVerb none re removeErr s nid fid now =
        ({ verb := .delete
           operationStatus := .failure
           errorCode := .notFound
           nativeID := nid }, s)) ∧
    (∀ fi, ReadFile re s.fs nid = .ok fi →
      ((doDelete removeErr s.fs (newOp fid .delete nid now) now).2.state = .completed →
        deleteVerb none re removeErr s nid fid now =
          ({ verb := .delete
             operationStatus := .success
             nativeID := nid },
           ⟨(doDelete removeErr s.fs (newOp fid .delete nid now) now).1,
            (fid, (doDelete removeErr s.fs (newOp fid .delete nid now) now).2)
              :: s.ops⟩)) ∧
      ((doDelete removeErr s.fs (newOp fid .delete nid now) now).2.state = .failure →
        deleteVerb none re removeErr s nid fid now =
          ({ verb := .delete
             operationStatus := .failure
             errorCode := .internalFailure
             statusMessage :=
               (doDelete removeErr s.fs (newOp fid .delete nid now) now).2.error },
           ⟨(doDelete removeErr s.fs (newOp fid .delete nid now) now).1,
            (fid, (doDelete removeErr s.fs (newOp fid .delete nid now) now).2)
              :: s.ops⟩))) := by
  refine ⟨?_, ?_⟩
  · intro h
    simp [deleteVerb, h]
  · intro fi h
    refine ⟨?_, ?_⟩
    · intro hc
      simp [deleteVerb, h, hc]
    · intro hf
      simp [deleteVerb, h, hf]

/-- Witness for C4 at a concrete input: deleting an absent path returns the
NotFound-tagged Failure and starts no job. -/
theorem delete_probes_then_polls_w :
    ReadFile cleanRead ([] : FS) "/upload/x.txt" = .error .notFound ∧
    deleteVerb none cleanRead none ⟨[], []⟩ "/upload/x.txt" "op-1" 4 =
      ({ verb := .delete
         operationStatus := .failure
         errorCode := .notFound
         nativeID := "/upload/x.txt" }, ⟨[], []⟩) :=
  ⟨rfl, (delete_probes_then_polls cleanRead none ⟨[], []⟩ "/upload/x.txt" "op-1" 4).1
    rfl⟩

/-! ## Claim C5: Read on an absent path -/

/-- C5: Read on an absent path returns — without raising any error, hence the
`.ok` — a result carrying the `NotFound` error code and no properties; a read
that itself fails (here: an injected stat fault on an existing file) instead
yields the `InternalFailure` error code, and the two codes are distinct. -/
theorem read_absent_flagged_not_error (re : ReadOracle) (fs fs2 : FS)
    (nid nid2 m : String) (fd : FileData)
    (habs : fsGet fs nid = none) (hpres : fsGet fs2 nid2 = some fd) :
    readVerb none re fs nid = .ok { properties := none, errorCode := .notFound } ∧
    readVerb none { statErr := some m } fs2 nid2 =
      .ok { properties := none, errorCode := .internalFailure } ∧
    OperationErrorCode.notFound ≠ OperationErrorCode.internalFailure := by
  refine ⟨?_, ?_, by simp⟩
  · simp [readVerb, ReadFile, habs]
  · simp [readVerb, ReadFile, hpres]

/-- Witness for C5 at a concrete input: the empty store has no
"/upload/x.txt", and a stat fault on an existing "/upload/y.txt" gives
InternalFailure instead. -/
theorem read_absent_flagged_not_error_w :
    fsGet [] "/upload/x.txt" = none ∧
    fsGet [("/upload/y.txt", FileData.mk "a" 420 0)] "/upload/y.txt" =
      some (FileData.mk "a" 420 0) ∧
    (readVerb none cleanRead [] "/upload/x.txt" =
        .ok { properties := none, errorCode := .notFound } ∧
      readVerb none { statErr := some "connection reset" }
          [("/upload/y.txt", FileData.mk "a" 420 0)] "/upload/y.txt" =
        .ok { properties := none, errorCode := .internalFailure } ∧
      OperationErrorCode.notFound ≠ OperationErrorCode.internalFailure) :=
  ⟨rfl, rfl,
    read_absent_flagged_not_error cleanRead [] [("/upload/y.txt", FileData.mk "a" 420 0)]
      "/upload/x.txt" "/upload/y.txt" "connection reset" (FileData.mk "a" 420 0)
      rfl rfl⟩

/-! ## Claim C2: the operation store invariant -/

/-- The record of operation "op-1" after its upload has succeeded and
`doUpload` has executed the assignment `op.Result = &FileInfo{…}` — which the
Go code performs *without* holding the store's mutex — but before the
subsequent `completeOperation` call: the result snapshot is already present
while the state is still `IN_PROGRESS`. -/
def midUploadOp : Operation :=
  { newOp "op-1" .upload "/upload/a.txt" 0 with
    result := some (statInfo "/upload/a.txt" (FileData.mk "hi" 420 0)) }

/-- A reachable operation-store state exhibiting the window between the
unlocked `op.Result` assignment and the completing store write. -/
def midUploadSys : StoreSys :=
  ⟨[("op-1", midUploadOp)], [PendingJob.uploadFinish "op-1"]⟩

/-- C2 counterexample: the claimed invariant "result snapshot present iff
state is Completed and kind is Upload" fails on a reachable store state.
`doUpload` assigns `op.Result` outside the mutex and only then calls
`completeOperation`, so the store reaches a state (observable by a concurrent
`GetStatus`) in which the registered record "op-1" carries a result snapshot
while still `IN_PROGRESS`. -/
theorem store_result_iff_cex :
    Reach midUploadSys ∧
    opsGet midUploadSys.ops "op-1" = some midUploadOp ∧
    midUploadOp.result.isSome = true ∧
    midUploadOp.state = .inProgress ∧
    ¬ (midUploadOp.result.isSome = true ↔
        (midUploadOp.state = .completed ∧ midUploadOp.type = .upload)) := by
  refine ⟨?_, rfl, rfl, rfl, by simp [midUploadOp, newOp]⟩
  exact Reach.step
    (Reach.step Reach.init
      (StoreStep.startUpload ⟨[], []⟩ "op-1" "/upload/a.txt" "hi" 420 0 rfl))
    (StoreStep.uploadSetsResult _ "op-1" "hi" 420
      (statInfo "/upload/a.txt" (FileData.mk "hi" 420 0)) (List.Mem.head _))

/-- C2 (amended): in every reachable state of the operation store, each job
record satisfies: its error message is present iff its state is Failed; its
result snapshot is present only on Upload records, and is guaranteed present
once the state is Completed and the kind is Upload (while `IN_PROGRESS` the
snapshot may transiently be present already, in the unlocked window right
before completion — see the counterexample); and terminal states are never
left or re-entered: any step taken from a reachable state leaves every
non-`IN_PROGRESS` record exactly as it is. -/
theorem store_invariant_monotonic (s t : StoreSys) (hs : Reach s) :
    (∀ i op, opsGet s.ops i = some op →
      (op.error ≠ "" ↔ op.state = .failure) ∧
      (op.result.isSome = true → op.type = .upload) ∧
      (op.state = .completed → op.type = .upload → op.result.isSome = true)) ∧
    (StoreStep s t → ∀ i op, opsGet s.ops i = some op →
      op.state ≠ .inProgress → opsGet t.ops i = some op) := by
  have hinv := reach_inv hs
  constructor
  · intro i op hop
    obtain ⟨h1, h2, h3, _⟩ := hinv.recs i op hop
    exact ⟨h1, h2, h3⟩
  · intro hst i op hop hterm
    have hpend : ∀ j ∈ s.pending, ¬ i = j.jobId := by
      intro j hj he
      obtain ⟨op0, hop0, hst0⟩ := jobOk_get (hinv.jobs j hj)
      rw [← he, hop] at hop0
      obtain rfl := Option.some.inj hop0
      rw [hst0] at hterm
      exact hterm rfl
    cases hst with
    | startUpload i2 path content mode now hfresh =>
      rw [opsGet_cons, if_neg ?_]
      · exact hop
      · intro he
        rw [he, hfresh] at hop
        exact Option.noConfusion hop
    | startDelete i2 path now hfresh =>
      rw [opsGet_cons, if_neg ?_]
      · exact hop
      · intro he
        rw [he, hfresh] at hop
        exact Option.noConfusion hop
    | uploadFails i2 content mode pre m now hp hpre =>
      rw [opsGet_opsUpdate, if_neg (show ¬ i = i2 from hpend _ hp)]
      exact hop
    | uploadSetsResult i2 content mode fi hp =>
      rw [opsGet_opsUpdate, if_neg (show ¬ i = i2 from hpend _ hp)]
      exact hop
    | uploadCompletes i2 now hp =>
      rw [opsGet_opsUpdate, if_neg (show ¬ i = i2 from hpend _ hp)]
      exact hop
    | deleteCompletes i2 now hp =>
      rw [opsGet_opsUpdate, if_neg (show ¬ i = i2 from hpend _ hp)]
      exact hop
    | deleteFails i2 m now hp =>
      rw [opsGet_opsUpdate, if_neg (show ¬ i = i2 from hpend _ hp)]
      exact hop

/-- Witness for C2 (amended) at a concrete input: the initial store is
reachable and the amended invariant holds of it. -/
theorem store_invariant_monotonic_w :
    Reach (StoreSys.mk [] []) ∧
    ((∀ i op, opsGet (StoreSys.mk [] []).ops i = some op →
        (op.error ≠ "" ↔ op.state = .failure) ∧
        (op.result.isSome = true → op.type = .upload) ∧
        (op.state = .completed → op.type = .upload → op.result.isSome = true)) ∧
      (StoreStep (StoreSys.mk [] []) (StoreSys.mk [] []) → ∀ i op,
        opsGet (StoreSys.mk [] []).ops i = some op →
        op.state ≠ .inProgress → opsGet (StoreSys.mk [] []).ops i = some op)) :=
  ⟨Reach.init, store_invariant_monotonic ⟨[], []⟩ ⟨[], []⟩ Reach.init⟩

/-! ## Claim C6: connection failure handling per verb -/

/-- C6 counterexample: `List` does not surface a client-creation failure as
Failure/InternalFailure — its result type has no status and no error code,
and on a connection error the verb returns the very same ordinary empty
listing that a successful `List` of an empty directory produces. -/
theorem list_swallows_connection_error :
    listVerb (some "failed to create SFTP client: ssh dial failed")
        (.ok ["/upload/a.txt"]) =
      { nativeIDs := [], nextPageToken := none } ∧
    listVerb none (.ok []) = { nativeIDs := [], nextPageToken := none } :=
  ⟨rfl, rfl⟩

/-- C6 (amended): when the client cannot be created, Create, Read, Update and
Delete return a synchronous Failure with error code InternalFailure (for Read,
the code on its result), Status with no client reports InternalFailure, and in
every case the plugin state is unchanged — no job is created; List, however,
merely returns an empty listing with no error indication of any kind. -/
theorem connection_failure_no_job (m : String) (s : Sys) (re : ReadOracle)
    (ue : UploadOracle) (ce removeErr : Option String) (nid fid rid : String)
    (priorW desiredW : Except String RawFileProps) (now : Nat)
    (lr : Except SftpErr (List String)) :
    (∀ w p, parseFileProperties w = .ok p →
      createVerb (some m) s w fid now =
        (failRes .create .internalFailure m, s)) ∧
    readVerb (some m) re s.fs nid =
      .ok { properties := none, errorCode := .internalFailure } ∧
    updateVerb (some m) ue ce re s nid priorW desiredW fid now =
      (failRes .update .internalFailure m, s) ∧
    deleteVerb (some m) re removeErr s nid fid now =
      (failRes .delete .internalFailure m, s) ∧
    statusVerb false s.ops rid =
      { verb := .checkStatus
        operationStatus := .failure
        errorCode := .internalFailure
        statusMessage := "no client available" } ∧
    listVerb (some m) lr = { nativeIDs := [], nextPageToken := none } := by
  refine ⟨?_, rfl, rfl, rfl, rfl, rfl⟩
  intro w p hp
  simp [createVerb, hp]

/-- Witness for C6 (amended) at a concrete input. -/
theorem connection_failure_no_job_w :
    parseFileProperties (.ok { path := "/upload/a.txt" }) =
      .ok { path := "/upload/a.txt", permissions := "0644" } ∧
    createVerb (some "ssh dial failed") ⟨[], []⟩ (.ok { path := "/upload/a.txt" })
        "op-1" 2 =
      (failRes .create .internalFailure "ssh dial failed", ⟨[], []⟩) :=
  ⟨rfl,
    (connection_failure_no_job "ssh dial failed" ⟨[], []⟩ cleanRead cleanUpload
        none none "/upload/a.txt" "op-1" "r-1" (.ok { path := "/upload/a.txt" })
        (.ok { path := "/upload/a.txt" }) 2 (.ok [])).1
      (.ok { path := "/upload/a.txt" })
      { path := "/upload/a.txt", permissions := "0644" } rfl⟩

/-! ## Claim C8: Update with nothing to change mutates nothing -/

/-- C8: for every Update request whose prior snapshot parses and whose
desired content and permissions both equal the prior snapshot's (after
parsing, which defaults omitted permissions), and whose target exists
remotely, no remote mutation is performed — neither an upload job is started
nor a permission change issued, the returned state carries the file store and
operation map exactly as they were — and the verb returns Success with the
(unchanged) snapshot of the remote file. -/
theorem update_noop_when_unchanged (ue : UploadOracle) (ce : Option String)
    (s : Sys) (nid : String) (priorW desiredW : Except String RawFileProps)
    (pp dp : RawFileProps) (fd : FileData) (fid : String) (now : Nat)
    (hd : parseFileProperties desiredW = .ok dp)
    (hp : parseFileProperties priorW = .ok pp)
    (hc : pp.content = dp.content) (hm : pp.permissions = dp.permissions)
    (hf : fsGet s.fs nid = some fd) :
    updateVerb none ue ce cleanRead s nid priorW desiredW fid now =
      ({ verb := .update
         operationStatus := .success
         nativeID := nid
         resourceProperties := some (propsOfInfo (statInfo nid fd)) }, s) := by
  simp [updateVerb, hd, hp, hc, hm, updReadBack, ReadFile, cleanRead, hf]

/-- Witness for C8 at a concrete input: prior and desired properties agree
(with the desired permissions left to the "0644" default), the file exists,
and Update returns Success with the current snapshot, leaving the plugin
state untouched. -/
theorem update_noop_when_unchanged_w :
    parseFileProperties (.ok { path := "/upload/a.txt", content := "hi" }) =
      .ok { path := "/upload/a.txt", content := "hi", permissions := "0644" } ∧
    fsGet [("/upload/a.txt", FileData.mk "hi" 420 9)] "/upload/a.txt" =
      some (FileData.mk "hi" 420 9) ∧
    updateVerb none cleanUpload none cleanRead
        ⟨[("/upload/a.txt", FileData.mk "hi" 420 9)], []⟩ "/upload/a.txt"
        (.ok { path := "/upload/a.txt", content := "hi" })
        (.ok { path := "/upload/a.txt", content := "hi" }) "op-1" 12 =
      ({ verb := .update
         operationStatus := .success
         nativeID := "/upload/a.txt"
         resourceProperties :=
           some (propsOfInfo (statInfo "/upload/a.txt" (FileData.mk "hi" 420 9))) },
       ⟨[("/upload/a.txt", FileData.mk "hi" 420 9)], []⟩) :=
  ⟨rfl, rfl,
    update_noop_when_unchanged cleanUpload none
      ⟨[("/upload/a.txt", FileData.mk "hi" 420 9)], []⟩ "/upload/a.txt"
      (.ok { path := "/upload/a.txt", content := "hi" })
      (.ok { path := "/upload/a.txt", content := "hi" })
      { path := "/upload/a.txt", content := "hi", permissions := "0644" }
      { path := "/upload/a.txt", content := "hi", permissions := "0644" }
      (FileData.mk "hi" 420 9) "op-1" 12 rfl rfl rfl rfl rfl⟩

end SftpPlugin
